import Mathlib

/-!
Verification of the derivative_pricer repository (Rust) against its
natural-language specification, via a shallow embedding of the source in
Lean 4.  Rust `f64` values are modelled as real numbers (`ℝ`), with an
explicit NaN constructor where NaN-behaviour matters; fallible code
(Rust panics) is modelled with `Option`.
-/

namespace DerivPricer

/-! ## src/utils.rs : NonNegativeFloat / TimeStamp -/

/-- Model of a Rust `f64` for the places where NaN matters: a double is
either NaN or a real number (infinities play no role in the claims). -/
inductive F64 where
  | nan : F64
  | val : ℝ → F64

/-- Embedding of `impl From<f64> for NonNegativeFloat` (src/utils.rs,
lines 116-128).  The source runs `if value < 0.0 { panic!(...) }` and
otherwise wraps the value.  In Rust, `NaN < 0.0` is `false`, so a NaN
input is wrapped without a panic.  `none` models the panic. -/
noncomputable def NonNegativeFloat.fromF64 : F64 → Option F64
  | .nan => some .nan
  | .val x => if x < 0 then none else some (.val x)

/-- Embedding of `From<f64>` restricted to non-NaN doubles, used by the
rest of the embedding where values are plain reals. -/
noncomputable def nnfFrom (x : ℝ) : Option ℝ :=
  if x < 0 then none else some x

/-- Embedding of `impl Ord for NonNegativeFloat::cmp` (src/utils.rs,
lines 99-112): values within `1e-10` compare equal, otherwise the raw
numeric order decides.  (The trailing `assert!(y < x)` of the source
cannot fire over the reals: trichotomy.) -/
noncomputable def NonNegativeFloat.cmp (x y : ℝ) : Ordering :=
  if |x - y| < 1e-10 then Ordering.eq
  else if x < y then Ordering.lt
  else Ordering.gt

/-- Embedding of `impl PartialEq for NonNegativeFloat::eq`
(src/utils.rs, lines 93-97): raw `f64` equality, no tolerance. -/
def NonNegativeFloat.eqRaw (x y : ℝ) : Prop := x = y

/-! ## src/stock.rs : GeometricBrownianMotionStock and StockState -/

/-- Embedding of `StockState` (src/stock.rs, lines 224-251): a stock
price observed at a time stamp. -/
structure StockState where
  value : ℝ
  time : ℝ

/-- Embedding of `GeometricBrownianMotionStock` (src/stock.rs, lines
5-17).  All `NonNegativeFloat` fields are carried as plain reals; the
non-negativity enforced by the Rust type appears as hypotheses of the
theorems. -/
structure GeometricBrownianMotionStock where
  price : ℝ
  current_time : ℝ
  drift : ℝ
  volatility : ℝ
  divident_rate : ℝ

/-- Embedding of `get_current_state` (src/stock.rs, lines 48-53). -/
def GeometricBrownianMotionStock.get_current_state
    (s : GeometricBrownianMotionStock) : StockState :=
  ⟨s.price, s.current_time⟩

/-- Embedding of `evolve` (src/stock.rs, lines 59-66).  The two
`NonNegativeFloat::from` / `TimeStamp::from` wraps are modelled by
`nnfFrom`; `none` models a panic. -/
noncomputable def GeometricBrownianMotionStock.evolve
    (s : GeometricBrownianMotionStock) (gaussian_sample : ℝ) (time_step : ℝ) :
    Option GeometricBrownianMotionStock :=
  let root_of_time := Real.sqrt time_step
  let half_sigma_squared := 0.5 * s.volatility * s.volatility
  let exponent := (s.drift - s.divident_rate - half_sigma_squared) * time_step
      + gaussian_sample * root_of_time * s.volatility
  let moved_spot := s.price * Real.exp exponent
  (nnfFrom moved_spot).bind fun p =>
    (nnfFrom (s.current_time + time_step)).map fun t =>
      { s with price := p, current_time := t }

/-- The per-step multiplicative factor common to `evolve` and the two
path generators of src/stock.rs: `exp((μ − q − ½σ²)·Δt + z·√Δt·σ)`. -/
noncomputable def gbmStepFactor (mu q sigma dt g : ℝ) : ℝ :=
  Real.exp ((mu - q - 0.5 * sigma * sigma) * dt + g * Real.sqrt dt * sigma)

/-- Embedding of the stepping loop shared by
`generate_path_from_time_stamps` (src/stock.rs, lines 84-106) and
`generate_risk_neutral_path_from_time_stamps` (lines 125-147); the two
bodies are identical except for the drift parameter `mu`.  `ct`/`cv`
carry the running time and value; running out of gaussians models the
out-of-bounds index (unreachable after the up-front length check), and
`none` models a panic (the in-loop monotonicity check, or the
`NonNegativeFloat::from` wrap of the pushed value). -/
noncomputable def pathLoop (mu q sigma : ℝ) :
    ℝ → ℝ → List ℝ → List ℝ → Option (List StockState)
  | _, _, _, [] => some []
  | _, _, [], _ :: _ => none
  | ct, cv, g :: gs, t :: ts =>
    if t - ct < 0 then none
    else
      let exponent := gbmStepFactor mu q sigma (t - ct) g
      (nnfFrom (cv * exponent)).bind fun v =>
        (pathLoop mu q sigma t (cv * exponent) gs ts).map
          fun rest => StockState.mk v t :: rest

/-- The success-case value of the stepping loop, as a total recurrence:
one state per requested time stamp, each step multiplying the carried
value by the single-step GBM factor. -/
noncomputable def pathSpec (mu q sigma : ℝ) :
    ℝ → ℝ → List ℝ → List ℝ → List StockState
  | _, _, _, [] => []
  | _, _, [], _ :: _ => []
  | ct, cv, g :: gs, t :: ts =>
    let exponent := gbmStepFactor mu q sigma (t - ct) g
    StockState.mk (cv * exponent) t :: pathSpec mu q sigma t (cv * exponent) gs ts

/-- Embedding of the common body of the two path generators
(src/stock.rs, lines 77-107 and 118-148), parameterized by the drift
`mu` used in the exponent: up-front length check, empty / begin-time
check, then the stepping loop. -/
noncomputable def generate_path_core (mu : ℝ)
    (s : GeometricBrownianMotionStock) (gaussians time_stamps : List ℝ) :
    Option (List StockState) :=
  if gaussians.length < time_stamps.length then none
  else
    match time_stamps with
    | [] => none
    | t0 :: _ =>
      if t0 < s.current_time then none
      else pathLoop mu s.divident_rate s.volatility s.current_time s.price
        gaussians time_stamps

/-- Embedding of `generate_path_from_time_stamps` (src/stock.rs, lines
77-107): the real-world-measure variant, stepping with `self.drift`. -/
noncomputable def GeometricBrownianMotionStock.generate_path_from_time_stamps
    (s : GeometricBrownianMotionStock) (gaussians time_stamps : List ℝ) :
    Option (List StockState) :=
  generate_path_core s.drift s gaussians time_stamps

/-- Embedding of `generate_risk_neutral_path_from_time_stamps`
(src/stock.rs, lines 118-148): identical body with the short rate `r`
in place of `self.drift`. -/
noncomputable def GeometricBrownianMotionStock.generate_risk_neutral_path_from_time_stamps
    (s : GeometricBrownianMotionStock) (gaussians time_stamps : List ℝ) (r : ℝ) :
    Option (List StockState) :=
  generate_path_core r s gaussians time_stamps

/-- The stock used for the concrete path-generation inputs: price 1,
current time 0, drift 0, volatility 0, dividend rate 0. -/
def stock0 : GeometricBrownianMotionStock := ⟨1, 0, 0, 0, 0⟩

/-! ## src/option.rs : AsianOption -/

/-- Embedding of `AsianOption` (src/option.rs, lines 107-123).  The
shared `Rc` reference to the underlying stock is modelled by an owned
field (the stock is never mutated through it); the boxed closures are
plain Lean functions, the boxed parameter vector a list. -/
structure AsianOption where
  underlying_stock : GeometricBrownianMotionStock
  expiry : ℝ
  monitoring_times : List ℝ
  history : List StockState
  average_function : List StockState → List ℝ → ℝ
  payoff_function : ℝ → List ℝ → ℝ
  params : List ℝ

/-- Embedding of the index-advancing loop of
`AsianOption::get_dimensionality` (src/option.rs, lines 169-173): the
length of the maximal prefix of monitoring times strictly before the
current time (`<` is the raw `PartialOrd` comparison of the wrapped
doubles, with no tolerance). -/
noncomputable def countWhileBefore : List ℝ → ℝ → ℕ
  | [], _ => 0
  | t :: ts, current_time =>
    if t < current_time then countWhileBefore ts current_time + 1 else 0

/-- Embedding of `AsianOption::get_dimensionality` (src/option.rs,
lines 168-175): the number of monitoring times minus the loop count. -/
noncomputable def AsianOption.get_dimensionality (o : AsianOption) : ℕ :=
  o.monitoring_times.length -
    countWhileBefore o.monitoring_times o.underlying_stock.get_current_state.time

/-- The quantity named by the specification for the dimensionality of
an Asian option: the number of monitoring times strictly after the
underlying's current time. -/
noncomputable def strictlyAfterCount (mts : List ℝ) (current_time : ℝ) : ℕ :=
  (mts.filter fun t => current_time < t).length

/-- Embedding of `AsianOption::update` (src/option.rs, lines 149-154):
append the underlying's current state unless its time stamp equals (raw
`f64` equality) the time stamp of the last recorded entry.  `none`
models the panic of indexing an empty history (unreachable: the
constructor seeds the history with one state). -/
noncomputable def AsianOption.update (o : AsianOption) : Option AsianOption :=
  match o.history.getLast? with
  | none => none
  | some last =>
    if last.time = o.underlying_stock.get_current_state.time then some o
    else some { o with history := o.history ++ [o.underlying_stock.get_current_state] }

/-- Embedding of `AsianOption::price_path` (src/option.rs, lines
181-196), in state-passing style: the second component is the receiver
after the call.  The method takes `&self` and every mutation in its
body targets the local clone `history` (`let mut history =
self.history.clone()`), so the receiver comes back unchanged.  The
first component is `none` when the body panics: empty recorded history,
or an invalid path request inside the risk-neutral generator (fewer
samples than future monitoring times, or no future monitoring time at
all). -/
noncomputable def AsianOption.price_path (o : AsianOption)
    (random_samples : List ℝ) (r : ℝ) : Option ℝ × AsianOption :=
  match o.history.getLast? with
  | none => (none, o)
  | some last =>
    let cur := o.underlying_stock.get_current_state
    let history1 :=
      if cur.time ≠ last.time then o.history ++ [cur] else o.history
    let t0 := (history1.getLastD cur).time
    let time_stamps := o.monitoring_times.filter fun t => t0 < t
    match o.underlying_stock.generate_risk_neutral_path_from_time_stamps
        random_samples time_stamps r with
    | none => (none, o)
    | some v =>
      (some (o.payoff_function
        (o.average_function (history1 ++ v) o.monitoring_times) o.params), o)

/-- A concrete Asian option used for counterexamples and witnesses: the
single monitoring time `0` coincides with the underlying's current
time. -/
noncomputable def asianOpt0 : AsianOption :=
  { underlying_stock := stock0
    expiry := 1
    monitoring_times := [0]
    history := [stock0.get_current_state]
    average_function := fun _ _ => 0
    payoff_function := fun _ _ => 0
    params := [] }

/-! ## src/utils.rs : the inverse cumulative normal approximation -/

/-- The numerator coefficients `a` of the central branch of
`inverse_cumulative_normal_function` (src/utils.rs, lines 8-12). -/
noncomputable def icnfA : ℕ → ℝ
  | 0 => 2.50662823884
  | 1 => -18.61500062529
  | 2 => 41.39119773534
  | 3 => -25.44106049637
  | _ => 0

/-- The denominator coefficients `b` of the central branch
(src/utils.rs, lines 13-17). -/
noncomputable def icnfB : ℕ → ℝ
  | 0 => -8.47351093090
  | 1 => 23.08336743743
  | 2 => -21.06224101826
  | 3 => 3.13082909833
  | _ => 0

/-- The tail-branch coefficients `c` (src/utils.rs, lines 18-28). -/
noncomputable def icnfC : ℕ → ℝ
  | 0 => 0.3374754822726147
  | 1 => 0.9761690190917186
  | 2 => 0.1607979714918209
  | 3 => 0.0276438810333863
  | 4 => 0.0038405729373609
  | 5 => 0.0003951896511919
  | 6 => 0.0000321767881768
  | 7 => 0.0000002888167364
  | 8 => 0.0000003960315187
  | _ => 0

/-- Embedding of the accumulation loop of the tail branch (src/utils.rs,
lines 38-43): `t` starts at `c[0]` and `s2` at `s`; for `i` in `1..9`,
`t += c[i] * s2; s2 = s2 * s`. -/
noncomputable def icnfTail (s : ℝ) : ℝ :=
  ((List.range 8).foldl (fun ts2 i => (ts2.1 + icnfC (i + 1) * ts2.2, ts2.2 * s))
    (icnfC 0, s)).1

/-- Embedding of `inverse_cumulative_normal_function` (src/utils.rs,
lines 7-50). -/
noncomputable def inverse_cumulative_normal_function (x : ℝ) : ℝ :=
  let y := x - 0.5
  if |y| < 0.42 then
    let r := y * y
    let num := y * (icnfA 0 + icnfA 1 * r + icnfA 2 * r * r + icnfA 3 * r * r * r)
    let denom := icnfB 0 * r + icnfB 1 * r * r + icnfB 2 * r * r * r
        + icnfB 3 * r * r * r * r
    num / (1 + denom)
  else
    let r := if y < 0 then x else 1 - x
    let s := Real.log (-(Real.log r))
    let t := icnfTail s
    if x > 0.5 then t else -t

/-- The specification's description of the inverse-CDF approximation:
a central rational polynomial in `r = (u − 0.5)²` when
`|u − 0.5| < 0.42`; otherwise `s = ln(−ln(r))` with `r = u` if
`u < 0.5` else `r = 1 − u`, an 8-degree polynomial in `s` with the
fixed coefficients, negated when `u < 0.5`. -/
noncomputable def inverseCumulativeNormalSpec (u : ℝ) : ℝ :=
  if |u - 0.5| < 0.42 then
    (u - 0.5) * (icnfA 0 + icnfA 1 * (u - 0.5) ^ 2 + icnfA 2 * ((u - 0.5) ^ 2) ^ 2
      + icnfA 3 * ((u - 0.5) ^ 2) ^ 3) /
    (1 + (icnfB 0 * (u - 0.5) ^ 2 + icnfB 1 * ((u - 0.5) ^ 2) ^ 2
      + icnfB 2 * ((u - 0.5) ^ 2) ^ 3 + icnfB 3 * ((u - 0.5) ^ 2) ^ 4))
  else
    let r := if u < 0.5 then u else 1 - u
    let s := Real.log (-(Real.log r))
    let t := ∑ i ∈ Finset.range 9, icnfC i * s ^ i
    if u < 0.5 then -t else t

/-! ## The seeded stream sampler used by the Monte Carlo driver

`monte_carlo_pricer` (src/monte_carlo_pricer.rs, line 52) builds its
sampler as `RandomNumberGenerator::new(seed)` and the driver draws via
`rng.get_gaussians(option.get_dimensionality())` (line 36).  No type
under src has these signatures — the `random_number_generator.rs`
present holds an incompatible fixed-dimensionality variant
(`new(seed, dimensionality)` and argumentless `get_gaussians(&self)`)
— so the stream sampler is code of the repository missing from src and
is modelled from the specification (§4.1): a seed-determined uniform
stream consumed in order, with gaussians obtained by the
inverse-cumulative-normal transform of the uniform draws. -/

/-- Modelled from the spec: the uniform side of the seeded stream
sampler; `u k` is the `k`-th uniform draw of the seed-determined
stream, `offset` the number of draws already consumed. -/
def StreamSampler.get_uniforms (u : ℕ → ℝ) (offset n : ℕ) : List ℝ :=
  (List.range n).map fun i => u (offset + i)

/-- Modelled from the spec (§4.1): the stream sampler's gaussians are
the inverse-cumulative-normal transform of its uniform draws. -/
noncomputable def StreamSampler.get_gaussians (u : ℕ → ℝ) (offset n : ℕ) : List ℝ :=
  (StreamSampler.get_uniforms u offset n).map inverse_cumulative_normal_function

/-- Modelled from the spec: the stateful gaussian stream handed to
`monte_carlo_simulation` — `source` is the seed-determined gaussian
stream and `offset` the number of samples already consumed. -/
structure GaussianStream where
  source : ℕ → ℝ
  offset : ℕ

/-- Modelled from the spec: drawing `n` gaussians returns the next `n`
stream values and advances the offset (the stream is
order-preserving). -/
def GaussianStream.get_gaussians (rng : GaussianStream) (n : ℕ) :
    List ℝ × GaussianStream :=
  ((List.range n).map fun i => rng.source (rng.offset + i), ⟨rng.source, rng.offset + n⟩)

/-- The sample batch consumed by the `i`-th Monte Carlo trial: `dim`
consecutive stream values starting at position `i * dim`. -/
def trialBatch (rng : GaussianStream) (dim : ℕ) (i : ℕ) : List ℝ :=
  (List.range dim).map fun j => rng.source (rng.offset + i * dim + j)

/-! ## src/statistics_gatherer.rs : MeanStatisticsGatherer -/

/-- Embedding of `MeanStatisticsGatherer` (src/statistics_gatherer.rs,
lines 12-17): a running sum and a count. -/
structure MeanStatisticsGatherer where
  running_sum : ℝ
  paths_done : ℕ

/-- Embedding of `MeanStatisticsGatherer::new` (lines 21-26). -/
def MeanStatisticsGatherer.new : MeanStatisticsGatherer := ⟨0, 0⟩

/-- Embedding of `dump_one_result` (lines 31-34). -/
def MeanStatisticsGatherer.dump_one_result (g : MeanStatisticsGatherer)
    (result : ℝ) : MeanStatisticsGatherer :=
  ⟨g.running_sum + result, g.paths_done + 1⟩

/-- Embedding of `get_results_so_far` (lines 37-39): the mean
`running_sum / paths_done` wrapped in a two-dimensional vector.  (With
no samples recorded the Rust quotient `0.0/0` is NaN; over `ℝ` it is
`0` — the theorems therefore require at least one trial.) -/
noncomputable def MeanStatisticsGatherer.get_results_so_far
    (g : MeanStatisticsGatherer) : List (List ℝ) :=
  [[g.running_sum / (g.paths_done : ℝ)]]

/-! ## src/monte_carlo_pricer.rs -/

/-- The `DerivativeOption` trait interface (src/option.rs, lines 20-30)
as consumed by the generic Monte Carlo driver: time to expiry,
dimensionality, and the per-path undiscounted payoff. -/
structure PricerOption where
  time_to_expiry : Option ℝ
  dimensionality : ℕ
  price_path : List ℝ → ℝ → ℝ

/-- Embedding of `monte_carlo_simulation` (src/monte_carlo_pricer.rs,
lines 30-38): fail fast (`none` models the `.expect` panic) when the
option has expired, otherwise compute the discount factor once and run
`number_of_paths` trials, each drawing a fresh batch of
`option.get_dimensionality()` gaussians and feeding the discounted path
price into the gatherer. -/
noncomputable def monte_carlo_simulation (option : PricerOption)
    (gatherer : MeanStatisticsGatherer) (r : ℝ) (rng : GaussianStream)
    (number_of_paths : ℕ) : Option (MeanStatisticsGatherer × GaussianStream) :=
  match option.time_to_expiry with
  | none => none
  | some tau =>
    let discount_factor := Real.exp (-r * tau)
    some ((List.range number_of_paths).foldl
      (fun gr _ =>
        let sg := gr.2.get_gaussians option.dimensionality
        (gr.1.dump_one_result (discount_factor * option.price_path sg.1 r), sg.2))
      (gatherer, rng))

/-- Embedding of `monte_carlo_pricer` (src/monte_carlo_pricer.rs, lines
49-55): run the simulation with a fresh mean gatherer and return
`get_results_so_far()[0][0]`. -/
noncomputable def monte_carlo_pricer (option : PricerOption) (r : ℝ)
    (rng : GaussianStream) (number_of_paths : ℕ) : Option ℝ :=
  (monte_carlo_simulation option MeanStatisticsGatherer.new r rng number_of_paths).map
    fun res => (res.1.get_results_so_far.getD 0 []).getD 0 0

/-! ## src/random_number_generator.rs : the fixed-dimensionality sampler -/

/-- Embedding of `RandomNumberGenerator` (src/random_number_generator.rs,
lines 22-27): an optional seed and a fixed dimensionality.  This is the
sampler variant actually present under src; it re-seeds `StdRng` on
every query. -/
structure RandomNumberGenerator where
  seed : Option ℕ
  dimensionality : ℕ

/-- Embedding of `RandomNumberGenerator::new` (lines 31-33). -/
def RandomNumberGenerator.new (seed : Option ℕ) (dimensionality : ℕ) :
    RandomNumberGenerator :=
  ⟨seed, dimensionality⟩

/-- Embedding of `get_uniforms` (src/random_number_generator.rs, lines
42-54).  `uniformStream s i` abstracts the `i`-th `f64` drawn via
`gen()` from `StdRng::seed_from_u64(s)` — deterministic in the seed,
reflecting that `StdRng` is a deterministic PRNG; `entropy` models the
`rand::thread_rng().gen()` draw used only when no seed is
configured. -/
def RandomNumberGenerator.get_uniforms (uniformStream : ℕ → ℕ → ℝ) (entropy : ℕ)
    (rng : RandomNumberGenerator) : List ℝ :=
  let s := match rng.seed with
    | some x => x
    | none => entropy
  (List.range rng.dimensionality).map fun i => uniformStream s i

/-- Embedding of `get_gaussians` (src/random_number_generator.rs, lines
57-70): same structure, with `normalStream s i` abstracting the `i`-th
`Normal(0,1)` sample drawn from `StdRng::seed_from_u64(s)` through
`rand_distr::Normal` (deterministic in the seed; note the src variant
samples through `rand_distr`, not through the inverse-CDF transform of
`uniformStream`). -/
def RandomNumberGenerator.get_gaussians (normalStream : ℕ → ℕ → ℝ) (entropy : ℕ)
    (rng : RandomNumberGenerator) : List ℝ :=
  let s := match rng.seed with
    | some x => x
    | none => entropy
  (List.range rng.dimensionality).map fun i => normalStream s i

/-! ## Helper lemmas -/

/-- On success, `pathLoop` returns exactly the `pathSpec` recurrence;
it fails precisely when the requested time stamps, prefixed with the
current time, fail to be weakly increasing (given enough gaussians and
a non-negative carried value). -/
theorem pathLoop_eq (mu q sigma : ℝ) (ts : List ℝ) :
    ∀ (gs : List ℝ) (ct cv : ℝ), 0 ≤ cv → ts.length ≤ gs.length →
      (pathLoop mu q sigma ct cv gs ts = none ↔ ¬ List.Chain (· ≤ ·) ct ts) ∧
      (List.Chain (· ≤ ·) ct ts →
        pathLoop mu q sigma ct cv gs ts = some (pathSpec mu q sigma ct cv gs ts)) := by
  induction ts with
  | nil =>
    intro gs ct cv _ _
    constructor
    · simp [pathLoop, List.Chain.nil]
    · intro _; simp [pathLoop, pathSpec]
  | cons t ts ih =>
    intro gs ct cv hcv hlen
    match gs with
    | [] => simp at hlen
    | g :: gs =>
      have hlen2 : ts.length ≤ gs.length := by simpa using hlen
      by_cases hlt : t - ct < 0
      · have hchain : ¬ List.Chain (· ≤ ·) ct (t :: ts) := by
          rw [List.chain_cons]
          intro h
          exact absurd (sub_nonneg.mpr h.1) (not_le.mpr hlt)
        constructor
        · simp [pathLoop, hlt, hchain]
        · intro h; exact absurd h hchain
      · have hfac : 0 ≤ cv * gbmStepFactor mu q sigma (t - ct) g :=
          mul_nonneg hcv (Real.exp_pos _).le
        have hfrom : nnfFrom (cv * gbmStepFactor mu q sigma (t - ct) g) =
            some (cv * gbmStepFactor mu q sigma (t - ct) g) := by
          simp [nnfFrom, not_lt.mpr hfac]
        have ihspec := ih gs t (cv * gbmStepFactor mu q sigma (t - ct) g) hfac hlen2
        constructor
        · rw [List.chain_cons]
          simp only [pathLoop, if_neg hlt, hfrom, Option.some_bind, Option.map_eq_none']
          rw [ihspec.1]
          constructor
          · intro h hc; exact h hc.2
          · intro h hc
            exact h ⟨sub_nonneg.mp (not_lt.mp hlt), hc⟩
        · intro hc
          rw [List.chain_cons] at hc
          simp only [pathLoop, if_neg hlt, hfrom, Option.some_bind, ihspec.2 hc.2,
            Option.map_some', pathSpec]

/-- `pathSpec` produces one state per requested time stamp when enough
gaussians are supplied. -/
theorem pathSpec_length (mu q sigma : ℝ) (ts : List ℝ) :
    ∀ (gs : List ℝ) (ct cv : ℝ), ts.length ≤ gs.length →
      (pathSpec mu q sigma ct cv gs ts).length = ts.length := by
  induction ts with
  | nil => intro gs ct cv _; simp [pathSpec]
  | cons t ts ih =>
    intro gs ct cv hlen
    match gs with
    | [] => simp at hlen
    | g :: gs =>
      have hlen2 : ts.length ≤ gs.length := by simpa using hlen
      simp [pathSpec, ih gs t _ hlen2]

/-- The time stamp of each `pathSpec` state is the requested one. -/
theorem pathSpec_times (mu q sigma : ℝ) (ts : List ℝ) :
    ∀ (gs : List ℝ) (ct cv : ℝ), ts.length ≤ gs.length →
      (pathSpec mu q sigma ct cv gs ts).map StockState.time = ts := by
  induction ts with
  | nil => intro gs ct cv _; simp [pathSpec]
  | cons t ts ih =>
    intro gs ct cv hlen
    match gs with
    | [] => simp at hlen
    | g :: gs =>
      have hlen2 : ts.length ≤ gs.length := by simpa using hlen
      simp [pathSpec, ih gs t _ hlen2]

/-- A single `evolve` step succeeds on a non-negative price and a
non-negative resulting time, multiplying the price by the GBM step
factor and advancing the clock. -/
theorem evolve_some (s : GeometricBrownianMotionStock) (z dt : ℝ)
    (hp : 0 ≤ s.price) (ht2 : 0 ≤ s.current_time + dt) :
    s.evolve z dt = some
      { s with price := s.price * gbmStepFactor s.drift s.divident_rate s.volatility dt z,
               current_time := s.current_time + dt } := by
  have hfac : (0:ℝ) < gbmStepFactor s.drift s.divident_rate s.volatility dt z := by
    unfold gbmStepFactor; exact Real.exp_pos _
  have h1 : ¬ s.price * gbmStepFactor s.drift s.divident_rate s.volatility dt z < 0 :=
    not_lt.mpr (mul_nonneg hp hfac.le)
  have h2 : ¬ s.current_time + dt < 0 := not_lt.mpr ht2
  simp only [gbmStepFactor] at h1
  simp only [GeometricBrownianMotionStock.evolve, nnfFrom, gbmStepFactor]
  rw [if_neg h1, if_neg h2]
  simp

/-! ## Theorems for claims C1 and C7 -/

/-- Claim C1 (code evaluation at the failing input): constructing a
`NonNegativeFloat` from `f64::NAN` does NOT fail in the source — the
guard `value < 0.0` is false for NaN, so the NaN is wrapped — although
the claim (and the repository's own `#[should_panic]` test
`non_negative_float_test4`) says the construction must fail. -/
theorem nonNegativeFloat_from_nan_succeeds :
    NonNegativeFloat.fromF64 F64.nan = some F64.nan := rfl

/-- Claim C7: comparison of two `NonNegativeFloat` values via `Ord::cmp`
is approximate-equality tolerant: values within `1e-10` compare equal,
and values at distance `≥ 1e-10` are ordered by numeric value. -/
theorem nnf_cmp_epsilon_tolerant (x y : ℝ) :
    (|x - y| < 1e-10 → NonNegativeFloat.cmp x y = Ordering.eq) ∧
    (1e-10 ≤ |x - y| →
      NonNegativeFloat.cmp x y = (if x < y then Ordering.lt else Ordering.gt) ∧
      (x < y → NonNegativeFloat.cmp x y = Ordering.lt) ∧
      (y < x → NonNegativeFloat.cmp x y = Ordering.gt)) := by
  constructor
  · intro h
    simp [NonNegativeFloat.cmp, h]
  · intro h
    have hne : ¬ |x - y| < 1e-10 := not_lt.mpr h
    refine ⟨by simp [NonNegativeFloat.cmp, hne], ?_, ?_⟩
    · intro hlt
      simp [NonNegativeFloat.cmp, hne, hlt]
    · intro hlt
      have hxy : ¬ x < y := not_lt.mpr hlt.le
      simp [NonNegativeFloat.cmp, hne, hxy]

/-- Witness for C7 at concrete inputs: `0` and `5e-11` are within the
tolerance and compare equal; `0` and `1` are ordered. -/
theorem nnf_cmp_epsilon_tolerant_witness :
    NonNegativeFloat.cmp 0 5e-11 = Ordering.eq ∧
    NonNegativeFloat.cmp 0 1 = Ordering.lt := by
  constructor
  · exact (nnf_cmp_epsilon_tolerant 0 5e-11).1 (by rw [abs_sub_lt_iff]; norm_num)
  · have h := ((nnf_cmp_epsilon_tolerant 0 1).2 (by rw [abs_sub_comm, abs_of_nonneg] <;> norm_num)).2.1
    exact h (by norm_num)

/-! ## Theorems for claims C3 and C5 -/

/-- Claim C3: a single `evolve` step with gaussian sample `z` and time
increment `dt ≥ 0` sets the price to
`p * exp((μ − q − ½σ²)·dt + σ·√dt·z)` and the current time to `t + dt`,
leaving drift, volatility and dividend rate unchanged. -/
theorem gbm_evolve_step (s : GeometricBrownianMotionStock) (z dt : ℝ)
    (hp : 0 ≤ s.price) (ht : 0 ≤ s.current_time) (hdt : 0 ≤ dt) :
    s.evolve z dt = some
      { price := s.price * Real.exp ((s.drift - s.divident_rate - 0.5 * s.volatility ^ 2) * dt
            + s.volatility * Real.sqrt dt * z),
        current_time := s.current_time + dt,
        drift := s.drift,
        volatility := s.volatility,
        divident_rate := s.divident_rate } := by
  rw [evolve_some s z dt hp (add_nonneg ht hdt)]
  have harg : (s.drift - s.divident_rate - 0.5 * s.volatility * s.volatility) * dt
      + z * Real.sqrt dt * s.volatility
      = (s.drift - s.divident_rate - 0.5 * s.volatility ^ 2) * dt
        + s.volatility * Real.sqrt dt * z := by ring
  simp only [gbmStepFactor, harg]

/-- Witness for C3 at the concrete stock (price 1, time 0, drift 0,
volatility 0, dividend rate 0), sample 0 and increment 0. -/
theorem gbm_evolve_step_witness :
    (GeometricBrownianMotionStock.mk 1 0 0 0 0).evolve 0 0 = some
      { price := 1 * Real.exp ((0 - 0 - 0.5 * (0:ℝ) ^ 2) * 0 + 0 * Real.sqrt 0 * 0),
        current_time := 0 + 0,
        drift := 0,
        volatility := 0,
        divident_rate := 0 } :=
  gbm_evolve_step ⟨1, 0, 0, 0, 0⟩ 0 0 (by norm_num) (by norm_num) (by norm_num)

/-- Claim C5 (counterexample): the claim says a time-stamp vector that
is not strictly increasing — equal consecutive stamps included — must
signal an error, but the source only rejects a strictly decreasing
step: on the repeated stamp vector `[1, 1]` the generator succeeds. -/
theorem gbm_generate_path_equal_stamps_no_error :
    ¬ List.Chain' (· < ·) [(1:ℝ), 1] ∧
    stock0.generate_path_from_time_stamps [0, 0] [1, 1] ≠ none := by
  constructor
  · simp [List.chain'_cons]
  · have hch : List.Chain (· ≤ ·) (0:ℝ) [1, 1] := by
      norm_num [List.chain_cons]
    have hsome := (pathLoop_eq 0 0 0 [1, 1] [0, 0] 0 1 (by norm_num) (by norm_num)).2 hch
    show generate_path_core stock0.drift stock0 [0, 0] [1, 1] ≠ none
    simp only [generate_path_core, stock0]
    norm_num
    rw [hsome]
    simp

/-- Claim C5 (amended): path generation from explicit time stamps fails
exactly when the time-stamp vector is empty, the sample vector is
shorter than the time-stamp vector, or the time stamps prefixed with
the current time are not weakly increasing (a strictly decreasing step,
or a first stamp before the current time; equal consecutive stamps are
accepted).  Otherwise it returns one state per requested time stamp,
produced by the sequential single-step recurrence `pathSpec`, whose
step is exactly the single-step `evolve` update; the risk-neutral
variant is the same computation with the short rate `r` substituted for
the drift. -/
theorem gbm_generate_path_spec (s : GeometricBrownianMotionStock)
    (gaussians time_stamps : List ℝ) (r : ℝ) (hp : 0 ≤ s.price) :
    (s.generate_path_from_time_stamps gaussians time_stamps = none ↔
      (time_stamps = [] ∨ gaussians.length < time_stamps.length ∨
        ¬ List.Chain (· ≤ ·) s.current_time time_stamps)) ∧
    (time_stamps ≠ [] → time_stamps.length ≤ gaussians.length →
      List.Chain (· ≤ ·) s.current_time time_stamps →
      s.generate_path_from_time_stamps gaussians time_stamps =
        some (pathSpec s.drift s.divident_rate s.volatility s.current_time s.price
          gaussians time_stamps) ∧
      (pathSpec s.drift s.divident_rate s.volatility s.current_time s.price
        gaussians time_stamps).length = time_stamps.length ∧
      (pathSpec s.drift s.divident_rate s.volatility s.current_time s.price
        gaussians time_stamps).map StockState.time = time_stamps) ∧
    (s.generate_risk_neutral_path_from_time_stamps gaussians time_stamps r =
      GeometricBrownianMotionStock.generate_path_from_time_stamps
        { s with drift := r } gaussians time_stamps) ∧
    (∀ ct cv g t : ℝ, 0 ≤ cv → 0 ≤ ct → ct ≤ t →
      (GeometricBrownianMotionStock.mk cv ct s.drift s.volatility s.divident_rate).evolve
          g (t - ct) =
        some (GeometricBrownianMotionStock.mk
          (cv * gbmStepFactor s.drift s.divident_rate s.volatility (t - ct) g) t
          s.drift s.volatility s.divident_rate)) := by
  refine ⟨?_, ?_, ?_, ?_⟩
  · show generate_path_core s.drift s gaussians time_stamps = none ↔ _
    by_cases hlen : gaussians.length < time_stamps.length
    · simp [generate_path_core, hlen]
    · match time_stamps with
      | [] => simp [generate_path_core, hlen]
      | t0 :: ts =>
        have hle : (t0 :: ts).length ≤ gaussians.length := not_lt.mp hlen
        by_cases ht0 : t0 < s.current_time
        · have hch : ¬ List.Chain (· ≤ ·) s.current_time (t0 :: ts) := by
            rw [List.chain_cons]
            intro h
            exact absurd h.1 (not_le.mpr ht0)
          simp [generate_path_core, hlen, ht0, hch]
        · simp only [generate_path_core, if_neg hlen, if_neg ht0]
          rw [(pathLoop_eq s.drift s.divident_rate s.volatility (t0 :: ts) gaussians
            s.current_time s.price hp hle).1]
          constructor
          · intro h
            exact Or.inr (Or.inr h)
          · rintro (h | h | h)
            · exact (List.cons_ne_nil _ _ h).elim
            · exact absurd h hlen
            · exact h
  · intro hne hle hch
    refine ⟨?_, pathSpec_length _ _ _ _ _ _ _ hle, pathSpec_times _ _ _ _ _ _ _ hle⟩
    show generate_path_core s.drift s gaussians time_stamps = _
    match time_stamps, hne with
    | t0 :: ts, _ =>
      have ht0 : ¬ t0 < s.current_time := not_lt.mpr (List.chain_cons.mp hch).1
      simp only [generate_path_core, if_neg (not_lt.mpr hle), if_neg ht0]
      exact (pathLoop_eq s.drift s.divident_rate s.volatility (t0 :: ts) gaussians
        s.current_time s.price hp hle).2 hch
  · rfl
  · intro ct cv g t hcv hct hctt
    rw [evolve_some ⟨cv, ct, s.drift, s.volatility, s.divident_rate⟩ g (t - ct) hcv
      (by show (0:ℝ) ≤ ct + (t - ct); linarith)]
    congr 1
    simp

/-- Witness for C5 at the concrete stock, one sample and one stamp. -/
theorem gbm_generate_path_spec_witness :
    stock0.generate_path_from_time_stamps [0] [1] = none ↔
      (([(1:ℝ)] = []) ∨ ([(0:ℝ)].length < [(1:ℝ)].length) ∨
        ¬ List.Chain (· ≤ ·) stock0.current_time [1]) :=
  (gbm_generate_path_spec stock0 [0] [1] 0 (by simp [stock0])).1

/-! ## Theorems for claims C4, C8 and C9 -/

/-- On a weakly sorted list, length minus the prefix-count of elements
strictly before the bound is the number of elements at or after the
bound. -/
theorem length_sub_countWhileBefore (ct : ℝ) :
    ∀ (mts : List ℝ), mts.Sorted (· ≤ ·) →
      mts.length - countWhileBefore mts ct = (mts.filter fun t => ct ≤ t).length := by
  intro mts
  induction mts with
  | nil => intro _; simp [countWhileBefore]
  | cons t ts ih =>
    intro hs
    rw [List.sorted_cons] at hs
    by_cases hlt : t < ct
    · have hnotle : ¬ ct ≤ t := not_le.mpr hlt
      simp only [countWhileBefore, if_pos hlt, List.filter_cons, hnotle, decide_eq_true_eq,
        if_neg, List.length_cons, decide_False, Bool.false_eq_true, ite_false]
      rw [Nat.succ_sub_succ]
      exact ih hs.2
    · have hle : ct ≤ t := not_lt.mp hlt
      have hall : ts.filter (fun t => ct ≤ t) = ts := by
        rw [List.filter_eq_self]
        intro a ha
        exact decide_eq_true (le_trans hle (hs.1 a ha))
      simp [countWhileBefore, hlt, List.filter_cons, hle, hall]

/-- Claim C4 (counterexample): on an Asian option whose single
monitoring time equals the underlying's current time, the source's
`get_dimensionality` returns 1, while the number of monitoring times
strictly after the current time is 0 — a monitoring time exactly equal
to the current time IS counted, contrary to the claim. -/
theorem asian_dimensionality_counterexample :
    asianOpt0.get_dimensionality = 1 ∧
    strictlyAfterCount asianOpt0.monitoring_times
      asianOpt0.underlying_stock.get_current_state.time = 0 ∧
    asianOpt0.get_dimensionality ≠
      strictlyAfterCount asianOpt0.monitoring_times
        asianOpt0.underlying_stock.get_current_state.time := by
  have h1 : asianOpt0.get_dimensionality = 1 := by
    simp [asianOpt0, stock0, AsianOption.get_dimensionality, countWhileBefore,
      GeometricBrownianMotionStock.get_current_state]
  have h2 : strictlyAfterCount asianOpt0.monitoring_times
      asianOpt0.underlying_stock.get_current_state.time = 0 := by
    simp [asianOpt0, stock0, strictlyAfterCount, List.filter_cons,
      GeometricBrownianMotionStock.get_current_state]
  exact ⟨h1, h2, by rw [h1, h2]; exact one_ne_zero⟩

/-- Claim C4 (amended): for a weakly sorted monitoring-time vector,
`get_dimensionality` returns the number of monitoring times at or
after (`≥`, not strictly after) the underlying's current time: a
monitoring time exactly equal to the current time is counted. -/
theorem asian_dimensionality_amended (o : AsianOption)
    (hsorted : o.monitoring_times.Sorted (· ≤ ·)) :
    o.get_dimensionality =
      (o.monitoring_times.filter
        fun t => o.underlying_stock.get_current_state.time ≤ t).length :=
  length_sub_countWhileBefore _ o.monitoring_times hsorted

/-- Witness for C4 (amended) at the concrete Asian option. -/
theorem asian_dimensionality_amended_witness :
    asianOpt0.get_dimensionality =
      (asianOpt0.monitoring_times.filter
        fun t => asianOpt0.underlying_stock.get_current_state.time ≤ t).length :=
  asian_dimensionality_amended asianOpt0 (by simp [asianOpt0])

/-- Claim C8: `update` appends the underlying's current state to the
recorded history exactly when the current time stamp differs from the
last recorded one, is a no-op otherwise, and running it twice leaves
the same history as running it once. -/
theorem asian_update_spec (o : AsianOption) (hne : o.history ≠ []) :
    (o.update = some
      (if (o.history.getLast hne).time = o.underlying_stock.get_current_state.time
        then o
        else { o with history := o.history ++ [o.underlying_stock.get_current_state] })) ∧
    ((o.history.getLast hne).time ≠ o.underlying_stock.get_current_state.time →
      o.update = some
        { o with history := o.history ++ [o.underlying_stock.get_current_state] }) ∧
    ((o.history.getLast hne).time = o.underlying_stock.get_current_state.time →
      o.update = some o) ∧
    (o.update.bind AsianOption.update = o.update) := by
  have hl : o.history.getLast? = some (o.history.getLast hne) :=
    List.getLast?_eq_getLast o.history hne
  by_cases heq : (o.history.getLast hne).time = o.underlying_stock.get_current_state.time
  · have hupd : o.update = some o := by
      simp [AsianOption.update, hl, heq]
    refine ⟨by rw [hupd, if_pos heq], fun h => absurd heq h, fun _ => hupd, ?_⟩
    rw [hupd, Option.some_bind, hupd]
  · have hupd : o.update = some
        { o with history := o.history ++ [o.underlying_stock.get_current_state] } := by
      simp [AsianOption.update, hl, heq]
    refine ⟨by rw [hupd, if_neg heq], fun _ => hupd, fun h => absurd h heq, ?_⟩
    rw [hupd, Option.some_bind]
    simp [AsianOption.update, List.getLast?_concat]

/-- Witness for C8: idempotence instantiated at the concrete option. -/
theorem asian_update_spec_witness :
    asianOpt0.update.bind AsianOption.update = asianOpt0.update :=
  (asian_update_spec asianOpt0 (by simp [asianOpt0])).2.2.2

/-- Claim C9: `price_path` leaves the Asian option — in particular its
recorded history and its underlying — unchanged: all simulated states
are appended to a local copy of the history only. -/
theorem asian_price_path_frame (o : AsianOption) (random_samples : List ℝ) (r : ℝ) :
    (o.price_path random_samples r).2 = o ∧
    ((o.price_path random_samples r).2).history = o.history ∧
    ((o.price_path random_samples r).2).underlying_stock = o.underlying_stock := by
  have h2 : (o.price_path random_samples r).2 = o := by
    unfold AsianOption.price_path
    split
    · rfl
    · dsimp only
      split <;> rfl
  exact ⟨h2, by rw [h2], by rw [h2]⟩

/-! ## Theorems for claims C2, C6 and C10 -/

/-- Closed form of the Monte Carlo trial loop: after `n` trials the
gatherer holds the sum of the `n` discounted path prices and the count
`n`, and the stream has advanced by `n * dim` samples. -/
theorem mc_foldl_closed (opt : PricerOption) (r d : ℝ) (rng0 : GaussianStream)
    (g0 : MeanStatisticsGatherer) (n : ℕ) :
    (List.range n).foldl
      (fun gr _ =>
        let sg := gr.2.get_gaussians opt.dimensionality
        (gr.1.dump_one_result (d * opt.price_path sg.1 r), sg.2))
      (g0, rng0) =
    (⟨g0.running_sum + ∑ i ∈ Finset.range n,
        d * opt.price_path (trialBatch rng0 opt.dimensionality i) r,
      g0.paths_done + n⟩,
     ⟨rng0.source, rng0.offset + n * opt.dimensionality⟩) := by
  induction n with
  | zero => simp
  | succ n ih =>
    rw [List.range_succ, List.foldl_append, ih]
    simp only [List.foldl_cons, List.foldl_nil, GaussianStream.get_gaussians,
      MeanStatisticsGatherer.dump_one_result, trialBatch, Finset.sum_range_succ]
    simp only [Prod.mk.injEq, MeanStatisticsGatherer.mk.injEq, GaussianStream.mk.injEq]
    exact ⟨⟨by ring, by omega⟩, trivial, by ring⟩

/-- Claim C2: with a present time-to-expiry `tau` and `n ≥ 1` trials,
the Monte Carlo pricer returns the arithmetic mean over the `n` trials
of `exp(-r·tau)` times the undiscounted per-path payoff, each trial
consuming a fresh batch of `dimensionality` gaussians from the stream;
and the mean gatherer's estimate is always the running sum divided by
the count. -/
theorem monte_carlo_pricer_mean (opt : PricerOption) (r tau : ℝ)
    (rng : GaussianStream) (n : ℕ)
    (htau : opt.time_to_expiry = some tau) (_hn : 1 ≤ n) :
    monte_carlo_pricer opt r rng n =
      some ((∑ i ∈ Finset.range n,
        Real.exp (-r * tau) * opt.price_path (trialBatch rng opt.dimensionality i) r) / n) ∧
    (∀ i, (trialBatch rng opt.dimensionality i).length = opt.dimensionality) ∧
    (∀ g : MeanStatisticsGatherer,
      g.get_results_so_far = [[g.running_sum / (g.paths_done : ℝ)]]) := by
  refine ⟨?_, fun i => by simp [trialBatch], fun g => rfl⟩
  unfold monte_carlo_pricer monte_carlo_simulation
  rw [htau]
  simp only [Option.map_some']
  rw [mc_foldl_closed opt r (Real.exp (-r * tau)) rng MeanStatisticsGatherer.new n]
  simp [MeanStatisticsGatherer.get_results_so_far, MeanStatisticsGatherer.new]

/-- Witness for C2: a one-trial run with a constant-zero payoff and a
zero stream. -/
theorem monte_carlo_pricer_mean_witness :
    monte_carlo_pricer ⟨some 1, 1, fun _ _ => 0⟩ 0 ⟨fun _ => 0, 0⟩ 1 =
      some ((∑ i ∈ Finset.range 1,
        Real.exp (-(0:ℝ) * 1) * (⟨some 1, 1, fun _ _ => 0⟩ : PricerOption).price_path
          (trialBatch ⟨fun _ => 0, 0⟩ (⟨some 1, 1, fun _ _ => 0⟩ : PricerOption).dimensionality i) 0) / (1:ℕ)) :=
  (monte_carlo_pricer_mean ⟨some 1, 1, fun _ _ => 0⟩ 0 1 ⟨fun _ => 0, 0⟩ 1 rfl
    (le_refl 1)).1

/-- The tail accumulation loop computes the 8-degree polynomial
`∑ i ≤ 8, c[i]·sⁱ`. -/
theorem icnfTail_eq (s : ℝ) :
    icnfTail s = ∑ i ∈ Finset.range 9, icnfC i * s ^ i := by
  have hr : List.range 8 = [0, 1, 2, 3, 4, 5, 6, 7] := rfl
  simp only [icnfTail, hr, List.foldl_cons, List.foldl_nil]
  simp only [Finset.sum_range_succ, Finset.sum_range_zero]
  norm_num
  ring

/-- Claim C6: the stream sampler's gaussians are exactly the
inverse-cumulative-normal transform applied elementwise to its uniform
draws, and the transform embedded from src/utils.rs agrees pointwise
with the specification's description (central rational polynomial for
`|u − 0.5| < 0.42`, tail polynomial in `s = ln(−ln r)` with negation
for `u < 0.5` otherwise). -/
theorem stream_gaussians_are_inverse_cdf_of_uniforms (u : ℕ → ℝ) (offset n : ℕ) :
    StreamSampler.get_gaussians u offset n =
      (StreamSampler.get_uniforms u offset n).map inverse_cumulative_normal_function ∧
    (∀ x : ℝ, inverse_cumulative_normal_function x = inverseCumulativeNormalSpec x) := by
  refine ⟨rfl, fun x => ?_⟩
  by_cases hc : |x - 0.5| < 0.42
  · simp only [inverse_cumulative_normal_function, inverseCumulativeNormalSpec, if_pos hc]
    congr 1
    · ring
    · ring
  · simp only [inverse_cumulative_normal_function, inverseCumulativeNormalSpec, if_neg hc]
    have hy : x - 0.5 < 0 ↔ x < 0.5 := sub_neg
    by_cases hlt : x < 0.5
    · have hgt : ¬ x > 0.5 := by linarith
      simp only [if_pos (hy.mpr hlt), if_pos hlt, if_neg hgt, icnfTail_eq]
    · have hxge : 0.5 ≤ x := not_lt.mp hlt
      have hge : 0.42 ≤ |x - 0.5| := not_lt.mp hc
      have hgt : x > 0.5 := by
        rw [abs_of_nonneg (by linarith)] at hge
        linarith
      simp only [if_neg (fun h => hlt (hy.mp h)), if_neg hlt, if_pos hgt, icnfTail_eq]

/-- Claim C10: two fixed-dimensionality samplers built from the same
seed produce identical uniform and identical gaussian sequences — the
system-entropy input is irrelevant once a seed is configured — and
every query regenerates the same seed-determined sequence. -/
theorem rng_seed_determinism (uniformStream normalStream : ℕ → ℕ → ℝ)
    (s d e1 e2 : ℕ) (g1 g2 : RandomNumberGenerator)
    (h1 : g1 = RandomNumberGenerator.new (some s) d)
    (h2 : g2 = RandomNumberGenerator.new (some s) d) :
    (g1.get_uniforms uniformStream e1 = g2.get_uniforms uniformStream e2) ∧
    (g1.get_gaussians normalStream e1 = g2.get_gaussians normalStream e2) ∧
    (g1.get_uniforms uniformStream e1 = (List.range d).map fun i => uniformStream s i) ∧
    (g1.get_gaussians normalStream e1 = (List.range d).map fun i => normalStream s i) := by
  subst h1 h2
  exact ⟨rfl, rfl, rfl, rfl⟩

/-- Witness for C10 at seed 3, dimensionality 2, distinct entropies and
concrete streams. -/
theorem rng_seed_determinism_witness :
    ((RandomNumberGenerator.new (some 3) 2).get_uniforms (fun s i => (s + i : ℝ)) 0 =
      (RandomNumberGenerator.new (some 3) 2).get_uniforms (fun s i => (s + i : ℝ)) 1) ∧
    ((RandomNumberGenerator.new (some 3) 2).get_gaussians (fun s i => (s * i : ℝ)) 0 =
      (RandomNumberGenerator.new (some 3) 2).get_gaussians (fun s i => (s * i : ℝ)) 1) ∧
    ((RandomNumberGenerator.new (some 3) 2).get_uniforms (fun s i => (s + i : ℝ)) 0 =
      (List.range 2).map fun i => ((3 : ℕ) + i : ℝ)) ∧
    ((RandomNumberGenerator.new (some 3) 2).get_gaussians (fun s i => (s * i : ℝ)) 0 =
      (List.range 2).map fun i => ((3 : ℕ) * i : ℝ)) :=
  rng_seed_determinism (fun s i => (s + i : ℝ)) (fun s i => (s * i : ℝ)) 3 2 0 1
    (RandomNumberGenerator.new (some 3) 2) (RandomNumberGenerator.new (some 3) 2) rfl rfl

end DerivPricer
